import Mathlib

/-!
Verification of the datashape discovery/unification engine
(`datashape/discovery.py`) against its natural-language specification.

The program infers a structural type shape from sample data and unifies
sequences of shapes via a fixed generality graph over scalar kinds.  The
definitions below are a shallow embedding of `discovery.py`:

* `Mono` embeds the type-shape data model consumed from the external
  `coretypes` library (scalar ctypes, `Option`, `Tuple`, `Record`,
  `DataShape` with a list of leading dimensions and a measure).
* `unite_identical`, `unite_base`, `unite_merge_dimensions`,
  `lowest_common_dshape`, `descendents`, `unpack`, `isnull` and the edge
  list embed the corresponding functions of `discovery.py` line by line.
* `discoverFuel`/`discover` embeds the multi-dispatch `discover`
  function, with Python values embedded as the sum type `Value`.

Fallible Python code is embedded in `Except PyErr`: an uncaught Python
exception is `.error`, a function body that falls off its end returning
`None` is modelled by `Option.none` in the result.  Parts of the
repository that are not part of `discovery.py` (the `coretypes` shape
algebra, `internal_utils._toposort`/`groupby`, Python builtins and the
external `dateutil` parser) are modelled from the specification and
carry a `Modelled from the spec:` note on their doc comment.
-/

/-- Uncaught Python exceptions that the embedded code can raise.
`AttributeError` never escapes (the discoverer catches it), so it is
modelled as `Option.none` results instead of an error constructor. -/
inductive PyErr where
  | typeError
  | valueError
deriving DecidableEq, Repr

/-- A dimension parameter of a DataShape: `Fixed(n)` or `Var`.
Modelled from the spec: Dimension counts are a positive integer or the
variable marker `var` (section 3 of the spec). -/
inductive Dim where
  | fixed (n : Nat)
  | var
deriving DecidableEq, Repr

/-- The type-shape data model (`Mono` is the library's base class name).
Modelled from the spec (section 3), since `coretypes` is not part of
`discovery.py`: scalar ctypes are leaves; `option`, `tuple`, `record`
wrap child shapes; `datashape dims measure` is the `DataShape`
constructor holding a (possibly empty) list of leading dimensions and a
measure, so that the Python `DataShape(null)` is `datashape [] null`.
`float64` embeds both spellings `float64` and `real` of the same ctype. -/
inductive Mono where
  | int32
  | int64
  | float64
  | bool_
  | complex128
  | string_
  | date_
  | time_
  | datetime_
  | null
  | option (t : Mono)
  | tuple (ts : List Mono)
  | record (fields : List (String × Mono))
  | datashape (dims : List Dim) (measure : Mono)
deriving Repr

mutual

/-- Structural equality of shapes, the embedding of the Python `==` on
`Mono` values (structural, order-sensitive; spec section 3). -/
def Mono.beq : Mono → Mono → Bool
  | .int32, .int32 => true
  | .int64, .int64 => true
  | .float64, .float64 => true
  | .bool_, .bool_ => true
  | .complex128, .complex128 => true
  | .string_, .string_ => true
  | .date_, .date_ => true
  | .time_, .time_ => true
  | .datetime_, .datetime_ => true
  | .null, .null => true
  | .option a, .option b => Mono.beq a b
  | .tuple a, .tuple b => Mono.beqList a b
  | .record a, .record b => Mono.beqFields a b
  | .datashape d1 m1, .datashape d2 m2 => d1 == d2 && Mono.beq m1 m2
  | _, _ => false

/-- Elementwise `Mono.beq` on lists of shapes. -/
def Mono.beqList : List Mono → List Mono → Bool
  | [], [] => true
  | a :: as, b :: bs => Mono.beq a b && Mono.beqList as bs
  | _, _ => false

/-- Elementwise `Mono.beq` on record field lists. -/
def Mono.beqFields : List (String × Mono) → List (String × Mono) → Bool
  | [], [] => true
  | (k1, v1) :: as, (k2, v2) :: bs => k1 == k2 && Mono.beq v1 v2 && Mono.beqFields as bs
  | _, _ => false

end

set_option maxHeartbeats 2000000 in
theorem Mono.beq_spec :
    (∀ a b : Mono, Mono.beq a b = true ↔ a = b) ∧
    (∀ fs gs : List (String × Mono), Mono.beqFields fs gs = true ↔ fs = gs) ∧
    (∀ as bs : List Mono, Mono.beqList as bs = true ↔ as = bs) := by
  apply Mono.beq.mutual_induct
      (motive_1 := fun a b => Mono.beq a b = true ↔ a = b)
      (motive_2 := fun fs gs => Mono.beqFields fs gs = true ↔ fs = gs)
      (motive_3 := fun as bs => Mono.beqList as bs = true ↔ as = bs) <;>
    intros <;>
    first
      | (simp_all [Mono.beq, Mono.beqList, Mono.beqFields]; done)
      | (rename_i t x h1 h2 h3 h4 h5 h6 h7 h8 h9 h10 h11 h12 h13 h14
         have hne : t ≠ x := by
           intro he
           subst he
           cases t with
           | int32 => exact h1 rfl rfl
           | int64 => exact h2 rfl rfl
           | float64 => exact h3 rfl rfl
           | bool_ => exact h4 rfl rfl
           | complex128 => exact h5 rfl rfl
           | string_ => exact h6 rfl rfl
           | date_ => exact h7 rfl rfl
           | time_ => exact h8 rfl rfl
           | datetime_ => exact h9 rfl rfl
           | null => exact h10 rfl rfl
           | option a => exact h11 a a rfl rfl
           | tuple a => exact h12 a a rfl rfl
           | record a => exact h13 a a rfl rfl
           | datashape d m => exact h14 d m d m rfl rfl
         have hb : Mono.beq t x = false := by
           cases t <;> cases x <;>
             first
               | rfl
               | (exact (h1 rfl rfl).elim)
               | (exact (h2 rfl rfl).elim)
               | (exact (h3 rfl rfl).elim)
               | (exact (h4 rfl rfl).elim)
               | (exact (h5 rfl rfl).elim)
               | (exact (h6 rfl rfl).elim)
               | (exact (h7 rfl rfl).elim)
               | (exact (h8 rfl rfl).elim)
               | (exact (h9 rfl rfl).elim)
               | (exact (h10 rfl rfl).elim)
               | (exact (h11 _ _ rfl rfl).elim)
               | (exact (h12 _ _ rfl rfl).elim)
               | (exact (h13 _ _ rfl rfl).elim)
               | (exact (h14 _ _ _ _ rfl rfl).elim)
         rw [hb]
         simp [hne])
      | (rename_i t x h1 h2
         have hne : t ≠ x := by
           intro he
           subst he
           cases t with
           | nil => exact h1 rfl rfl
           | cons hd tl => exact h2 hd tl hd tl rfl rfl
         have hb : Mono.beqList t x = false := by
           cases t <;> cases x <;>
             first
               | rfl
               | (exact (h1 rfl rfl).elim)
               | (exact (h2 _ _ _ _ rfl rfl).elim)
         rw [hb]
         simp [hne])
      | (rename_i t x h1 h2
         have hne : t ≠ x := by
           intro he
           subst he
           cases t with
           | nil => exact h1 rfl rfl
           | cons hd tl => exact h2 hd.1 hd.2 tl hd.1 hd.2 tl (by simp) (by simp)
         have hb : Mono.beqFields t x = false := by
           cases t <;> cases x <;>
             first
               | rfl
               | (exact (h1 rfl rfl).elim)
               | (rename_i p ps q qs
                  exact (h2 p.1 p.2 ps q.1 q.2 qs (by simp) (by simp)).elim)
         rw [hb]
         simp [hne])

instance : DecidableEq Mono := fun a b =>
  if h : Mono.beq a b = true then .isTrue ((Mono.beq_spec.1 a b).mp h)
  else .isFalse (fun he => h ((Mono.beq_spec.1 a b).mpr he))

theorem Mono.beq_eq_decide (a b : Mono) : Mono.beq a b = decide (a = b) := by
  cases hb : Mono.beq a b with
  | true => simp [(Mono.beq_spec.1 a b).mp hb]
  | false =>
    have hne : a ≠ b := fun he => by simp [(Mono.beq_spec.1 a b).mpr he] at hb
    simp [hne]

/-- The product `n * shape` of a Python `int` and a shape.
Modelled from the spec (section 3 `Dimension`): multiplying prepends a
`Fixed n` dimension, flattening into an existing DataShape. -/
def mulNat (n : Nat) (t : Mono) : Mono :=
  match t with
  | .datashape dims m => .datashape (.fixed n :: dims) m
  | m => .datashape [.fixed n] m

/-- The product `dim * shape` of a dimension and a shape (used for
`dims[0] * base.subshape[0]` and `var * base.subshape[0]`).
Modelled from the spec (section 3 `Dimension`). -/
def dimMul (d : Dim) (t : Mono) : Mono :=
  match t with
  | .datashape dims m => .datashape (d :: dims) m
  | m => .datashape [d] m

/-- Embeds `unpack` (discovery.py:226-238): a `DataShape` holding a
single parameter (no leading dimensions in this embedding) is unwrapped
to that parameter; anything else is returned unchanged. -/
def unpack (ds : Mono) : Mono :=
  match ds with
  | .datashape [] m => m
  | t => t

/-- Embeds `isnull` (discovery.py:118-119):
`ds == null or ds == DataShape(null)`. -/
def isnull (ds : Mono) : Bool :=
  Mono.beq ds .null || Mono.beq ds (.datashape [] .null)

/-- Embeds the check `isinstance(ds, DataShape) and isdimension(ds[0])`
(discovery.py:206): the shape is a DataShape whose first parameter is a
dimension (`Fixed` or `Var`). -/
def isDimensioned : Mono → Bool
  | .datashape (_ :: _) _ => true
  | _ => false

/-- The first parameter `ds[0]` of a dimensioned DataShape
(discovery.py:207).  Only used on shapes that passed `isDimensioned`;
the `.var` fallback on other shapes is never consulted. -/
def headDim : Mono → Dim
  | .datashape (d :: _) _ => d
  | _ => .var

/-- Embeds `ds.subshape[0]`: dropping the leading dimension of a
DataShape.  The unification strategies always return `len * shape`
DataShapes carrying a leading dimension, so at every use site the
argument has one; on shapes without a leading dimension this embedding
returns the shape unchanged (that branch is unreachable, see the use
sites, which guard with `isDimensioned`). -/
def stripLeadDim : Mono → Mono
  | .datashape [_] m => m
  | .datashape (_ :: d :: ds) m => .datashape (d :: ds) m
  | m => m

/-- A bare `DataShape` wrapper with no leading dimensions (such as the
`DataShape(null)` the library produces when `Record` packs a field).
The library never nests such a wrapper as the measure of another
DataShape, which some theorems assume as a well-formedness side
condition. -/
def isBareDataShape : Mono → Bool
  | .datashape [] _ => true
  | _ => false

/-- The scalar-or-null shapes: the base scalar ctypes together with the
null ctype (the shapes claim C2 quantifies over). -/
def isScalarOrNull : Mono → Bool
  | .int32 | .int64 | .float64 | .bool_ | .complex128 | .string_
  | .date_ | .time_ | .datetime_ | .null => true
  | _ => false

/-- Embeds the `edges` list of (general, specific) pairs
(discovery.py:125-135), including the duplicated
`(string, datetime_)` entry; `real` is the same ctype as `float64`. -/
def edgesList : List (Mono × Mono) :=
  [(.string_, .int64),
   (.string_, .float64),
   (.string_, .date_),
   (.string_, .datetime_),
   (.string_, .bool_),
   (.datetime_, .date_),
   (.string_, .datetime_),
   (.int64, .int32),
   (.float64, .int64),
   (.string_, .null)]

/-- The adjacency map `edges` after grouping (discovery.py:144-146):
for each shape the list of shapes it can be directly promoted into.
`groupby` lives in `internal_utils` (not part of discovery.py); grouping
the pair list by second component and keeping the first components is
its specified behaviour (spec section 4.1: "Edges are grouped by
specific endpoint into an adjacency map"). -/
def adjacency (x : Mono) : List Mono :=
  (edgesList.filter (fun e => Mono.beq e.2 x)).map Prod.fst

/-- One round of the closure loop inside `descendents`
(discovery.py:256-269): add every direct promotion of the current set. -/
def descStep (cur : List Mono) : List Mono :=
  cur ++ (cur.flatMap adjacency).filter (fun y => !cur.contains y)

/-- Embeds `descendents(edges, x)` (discovery.py:256-269): `x` together
with every shape transitively reachable through promotion edges.  The
source iterates until no new members appear; the graph has 10 nodes, so
10 rounds reach the same fixed point. -/
def descendents (x : Mono) : List Mono :=
  descStep^[10] [x]

/-- The cached global topological order of the scalar kinds, most
specific first.  Modelled from the spec: `_toposort` lives in
`internal_utils` (not part of discovery.py); section 4.1 specifies "a
single global topological ordering of all kinds ... used purely as a
total order for tie-breaking most specific choices", every promotion
edge's specific endpoint preceding its general endpoint. -/
def toposorted : List Mono :=
  [.int32, .int64, .float64, .bool_, .date_, .datetime_, .time_, .complex128, .null, .string_]

/-- Sanity check of the modelled order: for every promotion edge the
specific kind precedes the general kind. -/
theorem toposorted_respects_edges :
    ∀ p ∈ edgesList, toposorted.indexOf p.2 < toposorted.indexOf p.1 := by
  decide

/-- Embeds `lowest_common_dshape` (discovery.py:150-164):
`common = set.intersection(*[descendents(edges, ds) for ds in dshapes])`
followed by `min(common, key=toposorted.index)`.  On the empty list
`set.intersection` is called with no arguments and raises `TypeError`;
`min` raises `ValueError` when some member of `common` is missing from
`toposorted`; an empty intersection falls off the function (None). -/
def lowest_common_dshape (dshapes : List Mono) : Except PyErr (Option Mono) :=
  match dshapes with
  | [] => .error .typeError
  | d :: ds =>
    let common := ds.foldl (fun acc x => acc.filter (fun y => (descendents x).contains y))
      (descendents d)
    if common.isEmpty then .ok Option.none
    else if common.all (fun y => toposorted.contains y) then
      .ok (toposorted.find? (fun y => common.contains y))
    else .error .valueError

/-- Embeds `unite_base` (discovery.py:167-182): unpack every shape,
partition by `isnull` (the `groupby(isnull, dshapes)` call), take the
lowest common dshape of the non-null members, wrap it in `Option` when
null members are present, and multiply by the length.  A falsy
`lowest_common_dshape` result (None) makes the function fall off its
end (`Option.none`). -/
def unite_base (dshapes : List Mono) : Except PyErr (Option Mono) :=
  let ds := dshapes.map unpack
  let nonnull := ds.filter (fun x => !isnull x)
  let nulls := ds.filter (fun x => isnull x)
  match lowest_common_dshape nonnull with
  | .error e => .error e
  | .ok Option.none => .ok Option.none
  | .ok (some base) =>
    .ok (some (mulNat ds.length (if nulls.isEmpty then base else .option base)))

/-- Embeds `unite_identical` (discovery.py:185-192):
`if len(set(dshapes)) == 1: return len(dshapes) * dshapes[0]`. -/
def unite_identical (dshapes : List Mono) : Option Mono :=
  match dshapes with
  | [] => Option.none
  | d :: ds =>
    if ds.all (fun x => Mono.beq x d) then some (mulNat (ds.length + 1) d)
    else Option.none

/-- Embeds `unite_merge_dimensions` (discovery.py:196-213) with its
default `unite=unite_identical` parameter (no call site overrides it):
if every shape is a dimensioned DataShape, unite the subshapes with
`unite_identical`; on success multiply `n * (dims[0] * base.subshape[0])`
when all leading dimensions agree and `n * (var * base.subshape[0])`
otherwise.  The `dims` list is nonempty whenever `unite_identical`
succeeds (it fails on the empty list), so the empty-`dims` branch is
unreachable. -/
def unite_merge_dimensions (dshapes : List Mono) : Option Mono :=
  let n := dshapes.length
  if dshapes.all isDimensioned then
    match unite_identical (dshapes.map stripLeadDim) with
    | some base =>
      match dshapes.map headDim with
      | d0 :: drest =>
        some (mulNat n (dimMul (if drest.all (fun x => x == d0) then d0 else .var)
          (stripLeadDim base)))
      | [] => Option.none
    | Option.none => Option.none
  else Option.none

/-- Embeds `do_one([unite_identical, unite_base, unite_merge_dimensions])`
(discovery.py:89, 216-223), the unifier used on fast-path columns: each
strategy in turn, first truthy result wins (every strategy returns a
nonempty DataShape when it succeeds, which is truthy).  An overall
`.ok Option.none` models `do_one` falling through every strategy and
returning the input list itself. -/
def chainUnite (inp : List Mono) : Except PyErr (Option Mono) :=
  match unite_identical inp with
  | some r => .ok (some r)
  | Option.none =>
    match unite_base inp with
    | .error e => .error e
    | .ok (some r) => .ok (some r)
    | .ok Option.none => .ok (unite_merge_dimensions inp)

/-- Embeds `do_one([unite_identical, unite_merge_dimensions, Tuple])`
(discovery.py:97, 115): the final `Tuple` constructor always yields a
truthy result, so `do_one` never falls through to returning the input. -/
def unite_with_tuple (inp : List Mono) : Mono :=
  match unite_identical inp with
  | some r => r
  | Option.none =>
    match unite_merge_dimensions inp with
    | some r => r
    | Option.none => .tuple inp

/-- Modelled from the spec: the `unify` entry point of sections 4.2
and 6 — the three strategies in order with the heterogeneous-Tuple
fallback (discovery.py assembles the same chains with `do_one` but
never binds this exact composite to a name). -/
def unify (shapes : List Mono) : Except PyErr Mono :=
  match chainUnite shapes with
  | .error e => .error e
  | .ok (some r) => .ok r
  | .ok Option.none => .ok (.tuple shapes)

/-- A Python `datetime.date`: always truthy. -/
structure PyDate where
  year : Nat
  month : Nat
  day : Nat
deriving DecidableEq, Repr

/-- A Python `datetime.time`. -/
structure PyTime where
  hour : Nat
  minute : Nat
  second : Nat
  microsecond : Nat
deriving DecidableEq, Repr

/-- A Python `datetime.datetime`, split into its date and time parts as
returned by `dt.date()` and `dt.time()`. -/
structure PyDateTime where
  date : PyDate
  time : PyTime
deriving DecidableEq, Repr

/-- Truthiness of a `datetime.time`.  Modelled from the spec: on the
Python versions this code targets (pre-3.5), `bool(time(...))` is False
exactly at midnight — this is what makes `dt.time()` mean "non-trivial
time component" in the dispatch (spec section 4.3). -/
def timeTruthy (t : PyTime) : Bool :=
  !(t == ⟨0, 0, 0, 0⟩)

/-- Truthiness of a `datetime.date`.  Modelled from the spec: Python
dates define no `__bool__`, so every date object is truthy. -/
def dateTruthy (_ : PyDate) : Bool :=
  true

/-- Embeds the `datetime` branch of `discover` (discovery.py:40-47):
`if dt.time() and dt.date(): datetime_ elif dt.date(): date_ else: time_`. -/
def discover_datetime (dt : PyDateTime) : Mono :=
  if timeTruthy dt.time && dateTruthy dt.date then .datetime_
  else if dateTruthy dt.date then .date_
  else .time_

/-- The closed sum of Python sample values `discover` dispatches on.
`int` covers all `_inttypes`; `float`/`complex` payloads are dropped
because discovery never inspects them; `seq` covers both `tuple` and
`list`; `dict` is an association list with the unique string keys of a
Python dict; `pynone` is `None`. -/
inductive Value where
  | int (n : Int)
  | float
  | bool (b : Bool)
  | complex
  | datetime (dt : PyDateTime)
  | date (d : PyDate)
  | time (t : PyTime)
  | pynone
  | str (s : String)
  | seq (xs : List Value)
  | dict (kvs : List (String × Value))

/-- Decimal digit test on a character. -/
def isDigitCh (c : Char) : Bool :=
  48 ≤ c.toNat && c.toNat ≤ 57

/-- Nonempty all-digit character list. -/
def allDigits (cs : List Char) : Bool :=
  !cs.isEmpty && cs.all isDigitCh

/-- Drop one leading sign character. -/
def stripSign : List Char → List Char
  | '+' :: cs => cs
  | '-' :: cs => cs
  | cs => cs

/-- Mantissa of a float literal: digits, digits followed by a dot and
optional digits, or a dot followed by digits. -/
def mantissaOk (cs : List Char) : Bool :=
  match cs.splitOn '.' with
  | [a] => allDigits a
  | [a, b] => (allDigits a && (b.isEmpty || allDigits b)) || (a.isEmpty && allDigits b)
  | _ => false

/-- Modelled from the spec: Python `float(s)` inside the string
coercion chain — sign, decimal mantissa and optional exponent
(`inf`/`nan` spellings are not modelled; no claim needs them). -/
def parseFloat (s : String) : Option Unit :=
  let cs := stripSign s.data
  match (cs.map (fun c => if c == 'E' then 'e' else c)).splitOn 'e' with
  | [m] => if mantissaOk m then some () else Option.none
  | [m, e] => if mantissaOk m && allDigits (stripSign e) then some () else Option.none
  | _ => Option.none

/-- Embeds the `bools` lookup table (discovery.py:65-68): exactly the
four literal tokens. -/
def bools (s : String) : Option Bool :=
  if s == "False" then some false
  else if s == "false" then some false
  else if s == "True" then some true
  else if s == "true" then some true
  else Option.none

/-- Nonempty all-digit character list parsed as a number. -/
def digitsToNat (cs : List Char) : Option Nat :=
  if allDigits cs then some (cs.foldl (fun n c => n * 10 + (c.toNat - 48)) 0)
  else Option.none

/-- Modelled from the spec: Python `int(s)` inside the string coercion
chain — an optional sign followed by decimal digits (whitespace and
underscore tolerance of the builtin is not modelled; no claim needs
it). -/
def parseInt (s : String) : Option Int :=
  match s.data with
  | '-' :: cs => (digitsToNat cs).map (fun n => -(n : Int))
  | '+' :: cs => (digitsToNat cs).map (fun n => (n : Int))
  | cs => (digitsToNat cs).map (fun n => (n : Int))

/-- Modelled from the spec: the permissive external date-time parser
(`dateutil.parser.parse`), a collaborator outside this repository (spec
section 6).  Only ISO `YYYY-MM-DD` strings are modelled; they parse to
a datetime at midnight, and every other string fails to parse. -/
def dateparse (s : String) : Option PyDateTime :=
  match s.data.splitOn '-' with
  | [y, m, d] =>
    match digitsToNat y, digitsToNat m, digitsToNat d with
    | some yn, some mn, some dn => some ⟨⟨yn, mn, dn⟩, ⟨0, 0, 0, 0⟩⟩
    | _, _, _ => Option.none
  | _ => Option.none

/-- Embeds the string branch of `discover` (discovery.py:74-84): the
empty string is null; otherwise `int`, `float`, the `bools` table and
`dateparse` are tried in order, recursing (`d`) into the first
successful coercion, and `string` is the fallback. -/
def discoverStr (d : Value → Except PyErr Mono) (s : String) : Except PyErr Mono :=
  if s == "" then .ok .null
  else
    match parseInt s with
    | some n => d (.int n)
    | Option.none =>
      match parseFloat s with
      | some _ => d .float
      | Option.none =>
        match bools s with
        | some b => d (.bool b)
        | Option.none =>
          match dateparse s with
          | some dt => d (.datetime dt)
          | Option.none => .ok .string_

mutual

/-- Structural size of a value, used as recursion fuel for `discover`.
A string needs one extra unit for the recursion into its coerced
scalar value. -/
def Value.size : Value → Nat
  | .seq xs => (Value.sizeList xs).succ
  | .dict kvs => (Value.sizeFields kvs).succ
  | .str _ => 2
  | _ => 1

/-- Total size of a list of values. -/
def Value.sizeList : List Value → Nat
  | [] => 0
  | v :: vs => Value.size v + Value.sizeList vs

/-- Total size of the values of an association list. -/
def Value.sizeFields : List (String × Value) → Nat
  | [] => 0
  | (_, v) :: vs => Value.size v + Value.sizeFields vs

end

/-- The elements of a sequence when every element is itself a
`tuple`/`list`, i.e. the guard `all(isinstance(item, (tuple, list)) for
item in seq)` (discovery.py:91) together with the extraction of the
rows. -/
def asSeqElems : List Value → Option (List (List Value))
  | [] => some []
  | .seq r :: rest => (asSeqElems rest).map (fun rs => r :: rs)
  | _ => Option.none

/-- The elements of a sequence when every element is a `dict`
(discovery.py:102). -/
def asDictElems : List Value → Option (List (List (String × Value)))
  | [] => some []
  | .dict kvs :: rest => (asDictElems rest).map (fun rs => kvs :: rs)
  | _ => Option.none

/-- Embeds `len(set(map(len, seq))) == 1` (discovery.py:92): the rows
are nonempty and share one length. -/
def lensSetSizeOne (rows : List (List Value)) : Bool :=
  match rows with
  | [] => false
  | r :: rs => rs.all (fun q => q.length == r.length)

/-- The number of columns `zip(*rows)` produces: the least row length. -/
def minRowLen (rows : List (List Value)) : Nat :=
  match rows with
  | [] => 0
  | r :: rs => rs.foldl (fun m q => Nat.min m q.length) r.length

/-- Embeds `list(zip(*seq))` (discovery.py:93): the i-th column holds
the i-th member of every row.  `zip` truncates to the least row length,
so every index is in range and the `Value.pynone` default of `getD` is
never consulted. -/
def pyZip (rows : List (List Value)) : List (List Value) :=
  (List.range (minRowLen rows)).map (fun i => rows.map (fun r => r.getD i Value.pynone))

/-- Embeds `unite([discover(x) for x in column]).subshape[0]`
(discovery.py:95, 107) for one column: discover every member (an
uncaught exception propagates), run the strategy chain, and take the
subshape of a truthy result.  `Option.none` models the `AttributeError`
the comprehension raises — and the fast path catches — when the chain
fell through (returning a bare list) or the result carries no leading
dimension. -/
def colType (d : Value → Except PyErr Mono) (column : List Value) :
    Except PyErr (Option Mono) :=
  match column.mapM d with
  | .error e => .error e
  | .ok shapes =>
    match chainUnite shapes with
    | .error e => .error e
    | .ok (some m) => if isDimensioned m then .ok (some (stripLeadDim m)) else .ok Option.none
    | .ok Option.none => .ok Option.none

/-- The `types = [...]` comprehension over all columns (discovery.py:95,
107): left to right, the first uncaught exception propagates and the
first `AttributeError` (`Option.none`) aborts the comprehension. -/
def collectCols (d : Value → Except PyErr Mono) :
    List (List Value) → Except PyErr (Option (List Mono))
  | [] => .ok (some [])
  | c :: cs =>
    match colType d c with
    | .error e => .error e
    | .ok Option.none => .ok Option.none
    | .ok (some t) =>
      match collectCols d cs with
      | .error e => .error e
      | .ok Option.none => .ok Option.none
      | .ok (some ts) => .ok (some (t :: ts))

/-- Embeds the column-of-tuples fast path (discovery.py:91-100): if
every element is a tuple/list and all share one arity, transpose,
discover and unite each column, and on success return
`len(seq) * do_one([unite_identical, unite_merge_dimensions, Tuple])(types)`.
`Option.none` is the silent fall-through to the next rule. -/
def tuplePath (d : Value → Except PyErr Mono) (xs : List Value) :
    Except PyErr (Option Mono) :=
  match asSeqElems xs with
  | Option.none => .ok Option.none
  | some rows =>
    if lensSetSizeOne rows then
      match collectCols d (pyZip rows) with
      | .error e => .error e
      | .ok Option.none => .ok Option.none
      | .ok (some types) => .ok (some (mulNat xs.length (unite_with_tuple types)))
    else .ok Option.none

/-- Embeds `frozenset(item.keys())` equality across elements
(discovery.py:103): every key of one dict is a key of the other and
vice versa. -/
def keySetEq (a b : List String) : Bool :=
  a.all (fun k => b.contains k) && b.all (fun k => a.contains k)

/-- Embeds `len(set(frozenset(item.keys()) for item in seq)) == 1`
(discovery.py:103): nonempty, and all key sets coincide. -/
def sameKeySets (ds : List (List (String × Value))) : Bool :=
  match ds with
  | [] => false
  | k :: ks => ks.all (fun q => keySetEq (q.map Prod.fst) (k.map Prod.fst))

/-- Lexicographic-by-code-point order on character lists, the order
Python's `sorted` uses on strings. -/
def lexLe : List Char → List Char → Bool
  | [], _ => true
  | _ :: _, [] => false
  | a :: as, b :: bs =>
    if a.toNat < b.toNat then true
    else if b.toNat < a.toNat then false
    else lexLe as bs

/-- The string order backing `sorted` on keys. -/
def strLe (a b : String) : Prop :=
  lexLe a.data b.data = true

instance : DecidableRel strLe := fun a b =>
  inferInstanceAs (Decidable (lexLe a.data b.data = true))

/-- Embeds `sorted(keys)` (discovery.py:104, 243): ascending
lexicographic sort of key strings. -/
def sortStrings (ks : List String) : List String :=
  List.insertionSort strLe ks

/-- The per-key columns `[[item[key] for item in seq] for key in keys]`
(discovery.py:104-105), keys sorted from the first element.  The
`item[key]` lookups always succeed under the key-set guard, so the
`getD` default is never consulted. -/
def recordColumns (ds : List (List (String × Value))) : List (List Value) :=
  match ds with
  | [] => []
  | first :: _ =>
    (sortStrings (first.map Prod.fst)).map
      (fun k => ds.map (fun item => (List.lookup k item).getD .pynone))

/-- Embeds the column-of-records fast path (discovery.py:101-111): if
every element is a dict and all share one key set, build one column per
sorted key, unite each column with the same three-strategy chain, and
on success return `len(seq) * Record(zip(keys, types))`. -/
def recordPath (d : Value → Except PyErr Mono) (xs : List Value) :
    Except PyErr (Option Mono) :=
  match asDictElems xs with
  | Option.none => .ok Option.none
  | some ds =>
    if sameKeySets ds then
      match ds with
      | [] => .ok Option.none
      | first :: rest =>
        match collectCols d (recordColumns (first :: rest)) with
        | .error e => .error e
        | .ok Option.none => .ok Option.none
        | .ok (some types) =>
          .ok (some (mulNat xs.length
            (.record ((sortStrings (first.map Prod.fst)).zip types))))
    else .ok Option.none

/-- Embeds the sequence branch of `discover` (discovery.py:87-115): the
column-of-tuples fast path, then the column-of-records fast path, then
the general fallback
`do_one([unite_identical, unite_merge_dimensions, Tuple])(map(discover, seq))`
(note: no `unite_base`, and the `Tuple` fallback is returned without a
leading `len(seq) *` factor). -/
def discoverSeq (d : Value → Except PyErr Mono) (xs : List Value) : Except PyErr Mono :=
  match tuplePath d xs with
  | .error e => .error e
  | .ok (some m) => .ok m
  | .ok Option.none =>
    match recordPath d xs with
    | .error e => .error e
    | .ok (some m) => .ok m
    | .ok Option.none =>
      match xs.mapM d with
      | .error e => .error e
      | .ok types => .ok (unite_with_tuple types)

/-- The field comprehension `[[k, discover(d[k])] for k in ks]`
(discovery.py:243), left to right, the first uncaught exception
propagating.  Keys of a Python dict are unique, so `lookup` finds
exactly the stored value and the `getD` default is never consulted. -/
def discoverFields (d : Value → Except PyErr Mono) :
    List String → List (String × Value) → Except PyErr (List (String × Mono))
  | [], _ => .ok []
  | k :: ks, kvs =>
    match d ((List.lookup k kvs).getD .pynone) with
    | .error e => .error e
    | .ok m =>
      match discoverFields d ks kvs with
      | .error e => .error e
      | .ok fs => .ok ((k, m) :: fs)

/-- Embeds the dict branch of `discover` (discovery.py:241-243):
`Record([[k, discover(d[k])] for k in sorted(d)])`. -/
def discoverDict (d : Value → Except PyErr Mono) (kvs : List (String × Value)) :
    Except PyErr Mono :=
  match discoverFields d (sortStrings (kvs.map Prod.fst)) kvs with
  | .error e => .error e
  | .ok fs => .ok (.record fs)

/-- The fuelled embedding of the full multi-dispatch `discover`
(discovery.py).  The scalar dispatches are discovery.py:20-62; numpy
values are outside the embedding (spec section 4.3 delegates them to an
external dtype table).  Fuel only bounds recursion depth: `discover`
always supplies enough, so the fuel-exhaustion default is never
reached. -/
def discoverFuel : Nat → Value → Except PyErr Mono
  | 0, _ => .ok .null
  | n + 1, v =>
    match v with
    | .int _ => .ok .int64
    | .float => .ok .float64
    | .bool _ => .ok .bool_
    | .complex => .ok .complex128
    | .datetime dt => .ok (discover_datetime dt)
    | .date _ => .ok .date_
    | .time _ => .ok .time_
    | .pynone => .ok .null
    | .str s => discoverStr (discoverFuel n) s
    | .seq xs => discoverSeq (discoverFuel n) xs
    | .dict kvs => discoverDict (discoverFuel n) kvs

/-- The embedding of `discover`: run the fuelled recursion with the
structural size of the value, which bounds its recursion depth. -/
def discover (v : Value) : Except PyErr Mono :=
  discoverFuel v.size v

/-! Supporting lemmas. -/

theorem lexLe_total : ∀ as bs : List Char, lexLe as bs = true ∨ lexLe bs as = true := by
  intro as
  induction as with
  | nil => intro bs; left; rfl
  | cons a as ih =>
    intro bs
    cases bs with
    | nil => right; rfl
    | cons b bs =>
      by_cases h1 : a.toNat < b.toNat
      · left; simp [lexLe, h1]
      · by_cases h2 : b.toNat < a.toNat
        · right; simp [lexLe, h2]
        · rcases ih bs with h | h
          · left; simp [lexLe, h1, h2, h]
          · right; simp [lexLe, h1, h2, h]

theorem lexLe_trans : ∀ as bs cs : List Char,
    lexLe as bs = true → lexLe bs cs = true → lexLe as cs = true := by
  intro as
  induction as with
  | nil => intro bs cs _ _; rfl
  | cons a as ih =>
    intro bs cs h1 h2
    cases bs with
    | nil => simp [lexLe] at h1
    | cons b bs =>
      cases cs with
      | nil => simp [lexLe] at h2
      | cons c cs =>
        simp only [lexLe] at h1 h2 ⊢
        by_cases hab : a.toNat < b.toNat
        · by_cases hbc : b.toNat < c.toNat
          · have hac : a.toNat < c.toNat := Nat.lt_trans hab hbc
            simp [hac]
          · by_cases hcb : c.toNat < b.toNat
            · simp [hbc, hcb] at h2
            · have hac : a.toNat < c.toNat := by omega
              simp [hac]
        · by_cases hba : b.toNat < a.toNat
          · simp [hab, hba] at h1
          · by_cases hbc : b.toNat < c.toNat
            · have hac : a.toNat < c.toNat := by omega
              simp [hac]
            · by_cases hcb : c.toNat < b.toNat
              · simp [hbc, hcb] at h2
              · have hac : ¬a.toNat < c.toNat := by omega
                have hca : ¬c.toNat < a.toNat := by omega
                simp only [hab, hba, if_false] at h1
                simp only [hbc, hcb, if_false] at h2
                simp only [hac, hca, if_false]
                exact ih bs cs h1 h2

instance : IsTotal String strLe :=
  ⟨fun a b => lexLe_total a.data b.data⟩

instance : IsTrans String strLe :=
  ⟨fun a b c => lexLe_trans a.data b.data c.data⟩

theorem sortStrings_sorted (ks : List String) : List.Sorted strLe (sortStrings ks) :=
  List.sorted_insertionSort strLe ks

theorem discoverFields_keys (d : Value → Except PyErr Mono) :
    ∀ (ks : List String) (kvs : List (String × Value)) (fs : List (String × Mono)),
      discoverFields d ks kvs = .ok fs → fs.map Prod.fst = ks := by
  intro ks
  induction ks with
  | nil =>
    intro kvs fs h
    simp [discoverFields] at h
    simp [← h]
  | cons k ks ih =>
    intro kvs fs h
    simp only [discoverFields] at h
    cases hd : d ((List.lookup k kvs).getD .pynone) with
    | error e => rw [hd] at h; exact absurd h (by simp)
    | ok m =>
      rw [hd] at h
      cases hrest : discoverFields d ks kvs with
      | error e => rw [hrest] at h; exact absurd h (by simp)
      | ok fs' =>
        rw [hrest] at h
        simp only [Except.ok.injEq] at h
        rw [← h]
        simp [ih kvs fs' hrest]

theorem collectCols_length (d : Value → Except PyErr Mono) :
    ∀ (cs : List (List Value)) (ts : List Mono),
      collectCols d cs = .ok (some ts) → ts.length = cs.length := by
  intro cs
  induction cs with
  | nil =>
    intro ts h
    simp [collectCols] at h
    simp [← h]
  | cons c cs ih =>
    intro ts h
    simp only [collectCols] at h
    cases hc : colType d c with
    | error e => rw [hc] at h; exact absurd h (by simp)
    | ok o =>
      rw [hc] at h
      cases o with
      | none => exact absurd h (by simp)
      | some t =>
        cases hrest : collectCols d cs with
        | error e => rw [hrest] at h; exact absurd h (by simp)
        | ok o' =>
          rw [hrest] at h
          cases o' with
          | none => exact absurd h (by simp)
          | some ts' =>
            simp only [Except.ok.injEq, Option.some.injEq] at h
            rw [← h]
            simp [ih ts' hrest]

theorem stripLeadDim_mulNat (n : Nat) (x : Mono) (hx : isBareDataShape x = false) :
    stripLeadDim (mulNat n x) = x := by
  cases x with
  | datashape dims m =>
    cases dims with
    | nil => simp [isBareDataShape] at hx
    | cons d ds => simp [mulNat, stripLeadDim]
  | int32 => simp [mulNat, stripLeadDim]
  | int64 => simp [mulNat, stripLeadDim]
  | float64 => simp [mulNat, stripLeadDim]
  | bool_ => simp [mulNat, stripLeadDim]
  | complex128 => simp [mulNat, stripLeadDim]
  | string_ => simp [mulNat, stripLeadDim]
  | date_ => simp [mulNat, stripLeadDim]
  | time_ => simp [mulNat, stripLeadDim]
  | datetime_ => simp [mulNat, stripLeadDim]
  | null => simp [mulNat, stripLeadDim]
  | option t => simp [mulNat, stripLeadDim]
  | tuple ts => simp [mulNat, stripLeadDim]
  | record fs => simp [mulNat, stripLeadDim]

theorem unpack_scalarOrNull (m : Mono) (h : isScalarOrNull m = true) : unpack m = m := by
  cases m <;> simp_all [isScalarOrNull, unpack]

theorem contains_iff_mem (l : List Mono) (y : Mono) : l.contains y = true ↔ y ∈ l := by
  induction l with
  | nil => simp
  | cons a as ih =>
    simp only [List.contains_cons, Bool.or_eq_true, ih, List.mem_cons, beq_iff_eq]

/-- The most specific common promotion target of a list of shapes: the
earliest member of the topological order into which every listed shape
can be promoted (the spec's `lowestCommonShape` characterization,
section 4.1). -/
def mostSpecificCommon (shapes : List Mono) : Option Mono :=
  toposorted.find? (fun c => shapes.all (fun x => (descendents x).contains c))

theorem foldl_inter_mem (y : Mono) :
    ∀ (xs : List Mono) (init : List Mono),
      (y ∈ xs.foldl (fun acc x => acc.filter (fun z => (descendents x).contains z)) init ↔
        y ∈ init ∧ ∀ x ∈ xs, y ∈ descendents x) := by
  intro xs
  induction xs with
  | nil => intro init; simp
  | cons x xs ih =>
    intro init
    rw [List.foldl_cons, ih]
    simp only [List.mem_filter, contains_iff_mem, List.mem_cons]
    constructor
    · rintro ⟨⟨hi, hx⟩, hall⟩
      exact ⟨hi, fun z hz => by rcases hz with rfl | hz;exact hx; exact hall z hz⟩
    · rintro ⟨hi, hall⟩
      exact ⟨⟨hi, hall x (Or.inl rfl)⟩, fun z hz => hall z (Or.inr hz)⟩

theorem find?_congr (p q : Mono → Bool) :
    ∀ l : List Mono, (∀ x ∈ l, p x = q x) → l.find? p = l.find? q := by
  intro l
  induction l with
  | nil => intro _; rfl
  | cons a as ih =>
    intro h
    rw [List.find?_cons, List.find?_cons, h a (List.mem_cons_self a as)]
    cases q a with
    | true => rfl
    | false => exact ih (fun x hx => h x (List.mem_cons_of_mem a hx))

theorem desc_topo (m : Mono) (h1 : isScalarOrNull m = true) (h2 : isnull m = false) :
    ∀ y ∈ descendents m, toposorted.contains y = true := by
  cases m <;> simp_all [isScalarOrNull, isnull, Mono.beq] <;> decide


/-! Recursion-fuel adequacy: `discoverFuel` agrees with `discover` at
any sufficient fuel, so the fuelled branch helpers can be read with
`discover` itself as the recursive call. -/

theorem size_pos : ∀ v : Value, 1 ≤ Value.size v := by
  intro v
  cases v <;> simp [Value.size]

theorem discoverFuel_pynone : ∀ k : Nat, discoverFuel k .pynone = .ok .null := by
  intro k
  cases k <;> rfl

theorem size_mem_list : ∀ (xs : List Value) (v : Value), v ∈ xs →
    Value.size v ≤ Value.sizeList xs := by
  intro xs
  induction xs with
  | nil => intro v hv; exact absurd hv (List.not_mem_nil v)
  | cons a as ih =>
    intro v hv
    rcases List.mem_cons.mp hv with rfl | hv
    · show Value.size v ≤ Value.size v + Value.sizeList as
      omega
    · have := ih v hv
      show Value.size v ≤ Value.size a + Value.sizeList as
      omega

theorem size_lookup (k : String) : ∀ (kvs : List (String × Value)) (w : Value),
    List.lookup k kvs = some w → Value.size w ≤ Value.sizeFields kvs := by
  intro kvs
  induction kvs with
  | nil => intro w hw; simp [List.lookup] at hw
  | cons p rest ih =>
    intro w hw
    obtain ⟨k', v'⟩ := p
    rw [List.lookup] at hw
    cases hbe : (k == k') with
    | true =>
      rw [hbe] at hw
      simp only [Option.some.injEq] at hw
      rw [← hw]
      show Value.size v' ≤ Value.size v' + Value.sizeFields rest
      omega
    | false =>
      rw [hbe] at hw
      have := ih w hw
      show Value.size w ≤ Value.size v' + Value.sizeFields rest
      omega

theorem asSeqElems_eq : ∀ (xs : List Value) (rows : List (List Value)),
    asSeqElems xs = some rows → xs = rows.map Value.seq := by
  intro xs
  induction xs with
  | nil =>
    intro rows h
    simp [asSeqElems] at h
    simp [← h]
  | cons a as ih =>
    intro rows h
    cases a with
    | seq r =>
      simp only [asSeqElems] at h
      rcases Option.map_eq_some'.mp h with ⟨rs, hrs, hrows⟩
      rw [← hrows, List.map_cons, ← ih rs hrs]
    | int n => simp [asSeqElems] at h
    | float => simp [asSeqElems] at h
    | bool b => simp [asSeqElems] at h
    | complex => simp [asSeqElems] at h
    | datetime dt => simp [asSeqElems] at h
    | date d => simp [asSeqElems] at h
    | time t => simp [asSeqElems] at h
    | pynone => simp [asSeqElems] at h
    | str s => simp [asSeqElems] at h
    | dict kvs => simp [asSeqElems] at h

theorem asDictElems_eq : ∀ (xs : List Value) (ds : List (List (String × Value))),
    asDictElems xs = some ds → xs = ds.map Value.dict := by
  intro xs
  induction xs with
  | nil =>
    intro ds h
    simp [asDictElems] at h
    simp [← h]
  | cons a as ih =>
    intro ds h
    cases a with
    | dict kvs =>
      simp only [asDictElems] at h
      rcases Option.map_eq_some'.mp h with ⟨rs, hrs, hds⟩
      rw [← hds, List.map_cons, ← ih rs hrs]
    | int n => simp [asDictElems] at h
    | float => simp [asDictElems] at h
    | bool b => simp [asDictElems] at h
    | complex => simp [asDictElems] at h
    | datetime dt => simp [asDictElems] at h
    | date d => simp [asDictElems] at h
    | time t => simp [asDictElems] at h
    | pynone => simp [asDictElems] at h
    | str s => simp [asDictElems] at h
    | seq r => simp [asDictElems] at h

theorem getD_cases : ∀ (l : List Value) (i : Nat),
    l.getD i Value.pynone ∈ l ∨ l.getD i Value.pynone = Value.pynone := by
  intro l
  induction l with
  | nil => intro i; right; rfl
  | cons a as ih =>
    intro i
    cases i with
    | zero => left; exact List.mem_cons_self a as
    | succ j =>
      have hred : (a :: as).getD (j + 1) Value.pynone = as.getD j Value.pynone := by
        simp [List.getD]
      rw [hred]
      rcases ih j with h | h
      · left; exact List.mem_cons_of_mem a h
      · right; exact h

theorem mapM_congr_vals (d1 d2 : Value → Except PyErr Mono) :
    ∀ l : List Value, (∀ w ∈ l, d1 w = d2 w) → l.mapM d1 = l.mapM d2 := by
  intro l
  induction l with
  | nil => intro _; rfl
  | cons a as ih =>
    intro h
    rw [List.mapM_cons, List.mapM_cons, h a (List.mem_cons_self a as),
      ih (fun w hw => h w (List.mem_cons_of_mem a hw))]

theorem colType_congr (d1 d2 : Value → Except PyErr Mono) (c : List Value)
    (h : ∀ w ∈ c, d1 w = d2 w) : colType d1 c = colType d2 c := by
  rw [colType, colType, mapM_congr_vals d1 d2 c h]

theorem collectCols_congr (d1 d2 : Value → Except PyErr Mono) :
    ∀ cols : List (List Value), (∀ c ∈ cols, ∀ w ∈ c, d1 w = d2 w) →
      collectCols d1 cols = collectCols d2 cols := by
  intro cols
  induction cols with
  | nil => intro _; rfl
  | cons c cs ih =>
    intro h
    rw [collectCols, collectCols, colType_congr d1 d2 c (h c (List.mem_cons_self c cs)),
      ih (fun c' hc' => h c' (List.mem_cons_of_mem c hc'))]

theorem tuplePath_congr (d1 d2 : Value → Except PyErr Mono) (xs : List Value)
    (h : ∀ rows, asSeqElems xs = some rows → ∀ c ∈ pyZip rows, ∀ w ∈ c, d1 w = d2 w) :
    tuplePath d1 xs = tuplePath d2 xs := by
  rw [tuplePath, tuplePath]
  cases heq : asSeqElems xs with
  | none => rfl
  | some rows =>
    cases hl : lensSetSizeOne rows with
    | false => simp [hl]
    | true => simp [hl, collectCols_congr d1 d2 (pyZip rows) (h rows heq)]

theorem recordPath_congr (d1 d2 : Value → Except PyErr Mono) (xs : List Value)
    (h : ∀ ds, asDictElems xs = some ds → ∀ c ∈ recordColumns ds, ∀ w ∈ c, d1 w = d2 w) :
    recordPath d1 xs = recordPath d2 xs := by
  rw [recordPath, recordPath]
  cases heq : asDictElems xs with
  | none => rfl
  | some ds =>
    cases hs : sameKeySets ds with
    | false => simp [hs]
    | true =>
      cases ds with
      | nil => simp [hs]
      | cons first rest =>
        simp [hs, collectCols_congr d1 d2 (recordColumns (first :: rest)) (h _ heq)]

theorem discoverSeq_congr (d1 d2 : Value → Except PyErr Mono) (xs : List Value)
    (htp : ∀ rows, asSeqElems xs = some rows → ∀ c ∈ pyZip rows, ∀ w ∈ c, d1 w = d2 w)
    (hrp : ∀ ds, asDictElems xs = some ds → ∀ c ∈ recordColumns ds, ∀ w ∈ c, d1 w = d2 w)
    (hxs : ∀ w ∈ xs, d1 w = d2 w) :
    discoverSeq d1 xs = discoverSeq d2 xs := by
  rw [discoverSeq, discoverSeq, tuplePath_congr d1 d2 xs htp, recordPath_congr d1 d2 xs hrp,
    mapM_congr_vals d1 d2 xs hxs]

theorem discoverFields_congr (d1 d2 : Value → Except PyErr Mono)
    (kvs : List (String × Value)) :
    ∀ ks : List String,
      (∀ k ∈ ks, d1 ((List.lookup k kvs).getD .pynone) = d2 ((List.lookup k kvs).getD .pynone)) →
      discoverFields d1 ks kvs = discoverFields d2 ks kvs := by
  intro ks
  induction ks with
  | nil => intro _; rfl
  | cons k ks ih =>
    intro h
    rw [discoverFields, discoverFields, h k (List.mem_cons_self k ks),
      ih (fun k' hk' => h k' (List.mem_cons_of_mem k hk'))]

theorem discoverDict_congr (d1 d2 : Value → Except PyErr Mono)
    (kvs : List (String × Value))
    (h : ∀ k ∈ sortStrings (kvs.map Prod.fst),
      d1 ((List.lookup k kvs).getD .pynone) = d2 ((List.lookup k kvs).getD .pynone)) :
    discoverDict d1 kvs = discoverDict d2 kvs := by
  rw [discoverDict, discoverDict, discoverFields_congr d1 d2 kvs _ h]

theorem discoverStr_congr (d1 d2 : Value → Except PyErr Mono) (s : String)
    (h : ∀ w : Value, Value.size w = 1 → d1 w = d2 w) :
    discoverStr d1 s = discoverStr d2 s := by
  rw [discoverStr, discoverStr]
  cases s == "" with
  | true => rfl
  | false =>
    cases parseInt s with
    | some n => exact h (.int n) rfl
    | none =>
      cases parseFloat s with
      | some u => exact h .float rfl
      | none =>
        cases bools s with
        | some b => exact h (.bool b) rfl
        | none =>
          cases dateparse s with
          | some dt => exact h (.datetime dt) rfl
          | none => rfl

theorem discoverFuel_size_eq :
    ∀ (n : Nat) (v : Value) (m : Nat), Value.size v ≤ n → Value.size v ≤ m →
      discoverFuel n v = discoverFuel m v := by
  intro n
  induction n using Nat.strong_induction_on with
  | _ n ih =>
    intro v m hn hm
    have h1 := size_pos v
    cases n with
    | zero => omega
    | succ n' =>
      cases m with
      | zero => omega
      | succ m' =>
        cases v with
        | int k => rfl
        | float => rfl
        | bool b => rfl
        | complex => rfl
        | datetime dt => rfl
        | date d => rfl
        | time t => rfl
        | pynone => rfl
        | str s =>
          have hn2 : Value.size (Value.str s) = 2 := rfl
          show discoverStr (discoverFuel n') s = discoverStr (discoverFuel m') s
          apply discoverStr_congr
          intro w hw
          exact ih n' (Nat.lt_succ_self n') w m' (by omega) (by omega)
        | dict kvs =>
          have hsf : Value.sizeFields kvs + 1 = Value.size (Value.dict kvs) := rfl
          show discoverDict (discoverFuel n') kvs = discoverDict (discoverFuel m') kvs
          apply discoverDict_congr
          intro k _
          cases hlk : List.lookup k kvs with
          | none =>
            rw [Option.getD_none, discoverFuel_pynone, discoverFuel_pynone]
          | some w =>
            rw [Option.getD_some]
            have hw := size_lookup k kvs w hlk
            exact ih n' (Nat.lt_succ_self n') w m' (by omega) (by omega)
        | seq xs =>
          have hsl : Value.sizeList xs + 1 = Value.size (Value.seq xs) := rfl
          show discoverSeq (discoverFuel n') xs = discoverSeq (discoverFuel m') xs
          apply discoverSeq_congr
          · intro rows hrows c hc w hw
            have hxseq := asSeqElems_eq xs rows hrows
            rcases List.mem_map.mp hc with ⟨i, _, hci⟩
            rw [← hci] at hw
            rcases List.mem_map.mp hw with ⟨r, hr, hwr⟩
            rcases getD_cases r i with hmem | hpy
            · rw [hwr] at hmem
              have h2 : Value.size w ≤ Value.sizeList r := size_mem_list r w hmem
              have h3 : Value.seq r ∈ xs := by
                rw [hxseq]
                exact List.mem_map_of_mem Value.seq hr
              have h4 : Value.size (Value.seq r) ≤ Value.sizeList xs :=
                size_mem_list xs (Value.seq r) h3
              have h5 : Value.sizeList r + 1 = Value.size (Value.seq r) := rfl
              exact ih n' (Nat.lt_succ_self n') w m' (by omega) (by omega)
            · rw [hwr] at hpy
              rw [hpy, discoverFuel_pynone, discoverFuel_pynone]
          · intro ds hds c hc w hw
            have hxd := asDictElems_eq xs ds hds
            cases ds with
            | nil => exact absurd hc (List.not_mem_nil c)
            | cons first rest =>
              rw [recordColumns] at hc
              rcases List.mem_map.mp hc with ⟨k, _, hck⟩
              rw [← hck] at hw
              rcases List.mem_map.mp hw with ⟨item, hitem, hwi⟩
              cases hlk : List.lookup k item with
              | none =>
                rw [hlk, Option.getD_none] at hwi
                rw [← hwi, discoverFuel_pynone, discoverFuel_pynone]
              | some u =>
                rw [hlk, Option.getD_some] at hwi
                have h2 : Value.size u ≤ Value.sizeFields item := size_lookup k item u hlk
                have h3 : Value.dict item ∈ xs := by
                  rw [hxd]
                  exact List.mem_map_of_mem Value.dict hitem
                have h4 : Value.size (Value.dict item) ≤ Value.sizeList xs :=
                  size_mem_list xs (Value.dict item) h3
                have h5 : Value.sizeFields item + 1 = Value.size (Value.dict item) := rfl
                rw [← hwi]
                exact ih n' (Nat.lt_succ_self n') u m' (by omega) (by omega)
          · intro w hw
            have h2 : Value.size w ≤ Value.sizeList xs := size_mem_list xs w hw
            exact ih n' (Nat.lt_succ_self n') w m' (by omega) (by omega)

theorem discoverFuel_eq_discover (n : Nat) (v : Value) (h : Value.size v ≤ n) :
    discoverFuel n v = discover v :=
  discoverFuel_size_eq n v (Value.size v) h (Nat.le_refl _)

theorem discover_str_eq (s : String) : discover (.str s) = discoverStr discover s := by
  show discoverStr (discoverFuel 1) s = discoverStr discover s
  apply discoverStr_congr
  intro w hw
  exact discoverFuel_eq_discover 1 w (by omega)

theorem discover_dict_eq (kvs : List (String × Value)) :
    discover (.dict kvs) = discoverDict discover kvs := by
  show discoverDict (discoverFuel (Value.sizeFields kvs)) kvs = discoverDict discover kvs
  apply discoverDict_congr
  intro k _
  cases hlk : List.lookup k kvs with
  | none => rw [Option.getD_none, discoverFuel_pynone]; rfl
  | some w =>
    rw [Option.getD_some]
    exact discoverFuel_eq_discover _ w (size_lookup k kvs w hlk)

theorem discover_seq_eq (xs : List Value) : discover (.seq xs) = discoverSeq discover xs := by
  show discoverSeq (discoverFuel (Value.sizeList xs)) xs = discoverSeq discover xs
  apply discoverSeq_congr
  · intro rows hrows c hc w hw
    have hxseq := asSeqElems_eq xs rows hrows
    rcases List.mem_map.mp hc with ⟨i, _, hci⟩
    rw [← hci] at hw
    rcases List.mem_map.mp hw with ⟨r, hr, hwr⟩
    rcases getD_cases r i with hmem | hpy
    · rw [hwr] at hmem
      have h2 : Value.size w ≤ Value.sizeList r := size_mem_list r w hmem
      have h3 : Value.seq r ∈ xs := by
        rw [hxseq]
        exact List.mem_map_of_mem Value.seq hr
      have h4 : Value.size (Value.seq r) ≤ Value.sizeList xs :=
        size_mem_list xs (Value.seq r) h3
      have h5 : Value.sizeList r + 1 = Value.size (Value.seq r) := rfl
      exact discoverFuel_eq_discover _ w (by omega)
    · rw [hwr] at hpy
      rw [hpy, discoverFuel_pynone]
      rfl
  · intro ds hds c hc w hw
    have hxd := asDictElems_eq xs ds hds
    cases ds with
    | nil => exact absurd hc (List.not_mem_nil c)
    | cons first rest =>
      rw [recordColumns] at hc
      rcases List.mem_map.mp hc with ⟨k, _, hck⟩
      rw [← hck] at hw
      rcases List.mem_map.mp hw with ⟨item, hitem, hwi⟩
      cases hlk : List.lookup k item with
      | none =>
        rw [hlk, Option.getD_none] at hwi
        rw [← hwi, discoverFuel_pynone]
        rfl
      | some u =>
        rw [hlk, Option.getD_some] at hwi
        have h2 : Value.size u ≤ Value.sizeFields item := size_lookup k item u hlk
        have h3 : Value.dict item ∈ xs := by
          rw [hxd]
          exact List.mem_map_of_mem Value.dict hitem
        have h4 : Value.size (Value.dict item) ≤ Value.sizeList xs :=
          size_mem_list xs (Value.dict item) h3
        have h5 : Value.sizeFields item + 1 = Value.size (Value.dict item) := rfl
        rw [← hwi]
        exact discoverFuel_eq_discover _ u (by omega)
  · intro w hw
    exact discoverFuel_eq_discover _ w (size_mem_list xs w hw)

/-! Claim theorems. -/

/-- Every nonempty all-Null input makes `unite_base` raise `TypeError`:
the non-null partition is empty, so `lowest_common_dshape` calls
`set.intersection` with no arguments. -/
theorem unite_base_all_null (shapes : List Mono) (hall : ∀ m ∈ shapes, m = Mono.null) :
    unite_base shapes = .error PyErr.typeError := by
  have hmap : shapes.map unpack = shapes := by
    calc shapes.map unpack = shapes.map id :=
          List.map_congr_left (fun a ha => by rw [hall a ha]; rfl)
      _ = shapes := List.map_id shapes
  have hfil : (shapes.map unpack).filter (fun x => !isnull x) = [] := by
    rw [hmap]
    rw [List.filter_eq_nil_iff]
    intro a ha
    rw [hall a ha]
    decide
  simp only [unite_base, hfil]
  rfl

/-- Claim C3 (code evaluated at the failing input): applying
`unite_base` to sequences whose members are all the Null shape does not
return the negative no-result the claim describes — it raises
`TypeError`, because `lowest_common_dshape` receives an empty list and
calls `set.intersection` with no arguments (see also
`unite_base_all_null`). -/
theorem claim_C3 :
    unite_base [Mono.null, Mono.null] = .error PyErr.typeError ∧
    unite_base [Mono.null] = .error PyErr.typeError ∧
    unite_base [Mono.null, Mono.null, Mono.null] = .error PyErr.typeError :=
  ⟨rfl, rfl, rfl⟩

/-- Claim C10: discovering the empty sequence yields the empty
heterogeneous Tuple with no leading count and no error: both fast-path
guards hold the element tests vacuously but fail the one-shared-shape
set test, both unification strategies return no result on the empty
shape list, and the Tuple constructor is the final fallback. -/
theorem claim_C10 :
    discover (.seq []) = .ok (.tuple []) ∧
    asSeqElems [] = some [] ∧ lensSetSizeOne [] = false ∧
    asDictElems [] = some [] ∧ sameKeySets [] = false ∧
    unite_identical [] = Option.none ∧
    unite_merge_dimensions [] = Option.none ∧
    tuplePath discover [] = .ok Option.none ∧
    recordPath discover [] = .ok Option.none :=
  ⟨rfl, rfl, rfl, rfl, rfl, rfl, rfl, rfl, rfl⟩

/-- Claim C7, counterexample: unifying `[unify [int64]]` does not give
back `unify [int64]` — identical-unification prepends a fresh fixed-1
dimension, so re-unification yields `1 * 1 * int64`, which is not
structurally equal to `1 * int64`. -/
theorem claim_C7_counterexample :
    unify [Mono.int64] = .ok (.datashape [.fixed 1] .int64) ∧
    unify [Mono.datashape [.fixed 1] .int64] =
      .ok (.datashape [.fixed 1, .fixed 1] .int64) ∧
    (Mono.datashape [.fixed 1, .fixed 1] .int64) ≠ .datashape [.fixed 1] .int64 :=
  ⟨rfl, rfl, by decide⟩

/-- Claim C7 as amended: for every sequence S on which `unify` returns
a shape u, re-unifying the singleton `[u]` returns `1 * u` — u with a
fixed-1 dimension prepended by identical-unification — which is never
structurally equal to u itself. -/
theorem claim_C7 (S : List Mono) (u : Mono) (h : unify S = .ok u) :
    unify [u] = .ok (mulNat 1 u) ∧ mulNat 1 u ≠ u := by
  constructor
  · rfl
  · cases u with
    | datashape dims m =>
      intro he
      simp only [mulNat, Mono.datashape.injEq] at he
      exact List.cons_ne_self _ _ he.1
    | int32 => simp [mulNat]
    | int64 => simp [mulNat]
    | float64 => simp [mulNat]
    | bool_ => simp [mulNat]
    | complex128 => simp [mulNat]
    | string_ => simp [mulNat]
    | date_ => simp [mulNat]
    | time_ => simp [mulNat]
    | datetime_ => simp [mulNat]
    | null => simp [mulNat]
    | option t => simp [mulNat]
    | tuple ts => simp [mulNat]
    | record fs => simp [mulNat]

/-- Claim C7, witness: the amended statement at S = [int64]. -/
theorem claim_C7_witness :
    unify [Mono.datashape [Dim.fixed 1] Mono.int64] =
      .ok (mulNat 1 (Mono.datashape [Dim.fixed 1] Mono.int64)) ∧
    mulNat 1 (Mono.datashape [Dim.fixed 1] Mono.int64) ≠
      Mono.datashape [Dim.fixed 1] Mono.int64 :=
  claim_C7 [Mono.int64] (Mono.datashape [Dim.fixed 1] Mono.int64) rfl

/-- Claim C8: discovery of a Python datetime returns the datetime kind
exactly when both the time component and the date component are
non-trivial (truthy), the date kind when the date is the only truthy
component, and the time kind otherwise.  In the embedded data model a
datetime's date part is always truthy (Python dates define no
`__bool__`), so the time branch is vacuous — exactly as in the code,
where `dt.date()` never fails the truthiness test. -/
theorem claim_C8 (dt : PyDateTime) :
    discover (.datetime dt) = .ok (discover_datetime dt) ∧
    (timeTruthy dt.time = true → dateTruthy dt.date = true →
      discover_datetime dt = .datetime_) ∧
    (dateTruthy dt.date = true → timeTruthy dt.time = false →
      discover_datetime dt = .date_) ∧
    (dateTruthy dt.date = false → discover_datetime dt = .time_) := by
  refine ⟨rfl, fun h1 h2 => ?_, fun h1 h2 => ?_, fun h => ?_⟩
  · simp [discover_datetime, h1, h2]
  · simp [discover_datetime, h1, h2]
  · simp [dateTruthy] at h

/-- Claim C8, witness: a noon datetime discovers as datetime, a
midnight datetime as date. -/
theorem claim_C8_witness :
    discover_datetime ⟨⟨2014, 1, 5⟩, ⟨12, 0, 0, 0⟩⟩ = .datetime_ ∧
    discover_datetime ⟨⟨2014, 1, 5⟩, ⟨0, 0, 0, 0⟩⟩ = .date_ :=
  ⟨(claim_C8 ⟨⟨2014, 1, 5⟩, ⟨12, 0, 0, 0⟩⟩).2.1 (by decide) rfl,
   (claim_C8 ⟨⟨2014, 1, 5⟩, ⟨0, 0, 0, 0⟩⟩).2.2.1 rfl (by decide)⟩

/-- Claim C5: discovery of a textual value follows the fixed coercion
order — integer, then float, then the literal boolean tokens, then the
permissive date-time parser — recursing into the first successful
coercion and returning the opaque string kind only when all fail; the
empty string short-circuits to Null.  The examples are those of the
claim. -/
theorem claim_C5 :
    (∀ s : String, s ≠ "" →
      discover (.str s) =
        match parseInt s with
        | some n => discover (.int n)
        | Option.none =>
          match parseFloat s with
          | some _ => discover .float
          | Option.none =>
            match bools s with
            | some b => discover (.bool b)
            | Option.none =>
              match dateparse s with
              | some dt => discover (.datetime dt)
              | Option.none => .ok .string_) ∧
    discover (.str "42") = .ok .int64 ∧
    discover (.str "3.14") = .ok .float64 ∧
    discover (.str "true") = .ok .bool_ ∧
    discover (.str "") = .ok .null ∧
    discover (.str "hello") = .ok .string_ := by
  refine ⟨fun s hs => ?_, rfl, rfl, rfl, rfl, rfl⟩
  have hsb : (s == "") = false := by
    simpa using hs
  show discoverStr (discoverFuel 1) s = _
  rw [discoverStr, hsb]
  simp only [Bool.false_eq_true, if_false]
  cases parseInt s with
  | some n => rfl
  | none =>
    cases parseFloat s with
    | some u => rfl
    | none =>
      cases bools s with
      | some b => rfl
      | none =>
        cases dateparse s with
        | some dt => rfl
        | none => rfl

/-- Claim C5, witness: the coercion-chain statement applied at the
concrete string "abc", every coercion failing. -/
theorem claim_C5_witness : discover (.str "abc") = .ok Mono.string_ :=
  claim_C5.1 "abc" (by decide)

/-- Claim C1, counterexample: for the two-element sequence
[1, "hello"], no column fast path applies and the element shapes are
[int64, string].  The full three-strategy unifier on those shapes
succeeds through base-unification with 2 * string, yet discover returns
the bare heterogeneous Tuple — neither N * unified shape nor
N * Tuple. -/
theorem claim_C1_counterexample :
    discover (.seq [.int 1, .str "hello"]) = .ok (.tuple [.int64, .string_]) ∧
    chainUnite [.int64, .string_] = .ok (some (.datashape [.fixed 2] .string_)) ∧
    (Mono.tuple [.int64, .string_]) ≠ .datashape [.fixed 2] .string_ ∧
    (Mono.tuple [.int64, .string_]) ≠ mulNat 2 (.tuple [.int64, .string_]) :=
  ⟨rfl, rfl, by decide, by decide⟩

/-- Claim C1 as amended: when neither column fast path produces a
result, the sequence branch of discover maps discovery over the
elements and applies `do_one([unite_identical, unite_merge_dimensions,
Tuple])` — base-unification is not consulted — and returns that result
directly: `N * u` when identical-unification or dimension-merge
succeeds, and the bare `Tuple(elementShapes)` with no leading count
when both fail.  The first conjunct ties the sequence branch to
`discover` itself. -/
theorem claim_C1 :
    (∀ xs : List Value, discover (.seq xs) = discoverSeq discover xs) ∧
    (∀ (d : Value → Except PyErr Mono) (xs : List Value),
      tuplePath d xs = .ok Option.none → recordPath d xs = .ok Option.none →
      discoverSeq d xs = (xs.mapM d).map unite_with_tuple) ∧
    (∀ xs : List Value,
      tuplePath discover xs = .ok Option.none → recordPath discover xs = .ok Option.none →
      discover (.seq xs) = (xs.mapM discover).map unite_with_tuple) ∧
    (∀ types : List Mono, unite_identical types = Option.none →
      unite_merge_dimensions types = Option.none →
      unite_with_tuple types = .tuple types) ∧
    discover (.seq [.int 1, .int 2]) = .ok (.datashape [.fixed 2] .int64) ∧
    discover (.seq [.int 1, .str "hello"]) = .ok (.tuple [.int64, .string_]) := by
  have hfall : ∀ (d : Value → Except PyErr Mono) (xs : List Value),
      tuplePath d xs = .ok Option.none → recordPath d xs = .ok Option.none →
      discoverSeq d xs = (xs.mapM d).map unite_with_tuple := by
    intro d xs h1 h2
    rw [discoverSeq, h1, h2]
    cases xs.mapM d with
    | error e => rfl
    | ok types => rfl
  refine ⟨fun xs => discover_seq_eq xs, hfall, fun xs h1 h2 => ?_, fun types h1 h2 => ?_,
    rfl, rfl⟩
  · rw [discover_seq_eq xs]
    exact hfall discover xs h1 h2
  · rw [unite_with_tuple, h1, h2]

/-- Claim C1, witness: the amended fallback statement at the concrete
sequence [1, "x"], whose fast paths both decline. -/
theorem claim_C1_witness :
    discoverSeq discover [.int 1, .str "x"] =
      (([.int 1, .str "x"] : List Value).mapM discover).map unite_with_tuple :=
  claim_C1.2.1 discover [.int 1, .str "x"] rfl rfl

/-- Claim C4, counterexample: the element shapes of
[10 * int32, 10 * int64] unify under the full three-strategy unifier
(base-unification widens to int64), so the claim predicts
2 * (10 * int64); but `unite_merge_dimensions` recursively unites with
`unite_identical` only — its never-overridden default — and returns no
result. -/
theorem claim_C4_counterexample :
    unify [Mono.int32, Mono.int64] = .ok (.datashape [.fixed 2] .int64) ∧
    unite_merge_dimensions
      [.datashape [.fixed 10] .int32, .datashape [.fixed 10] .int64] = Option.none ∧
    (Option.none : Option Mono) ≠ some (mulNat 2 (dimMul (Dim.fixed 10) Mono.int64)) :=
  ⟨rfl, rfl, by decide⟩

/-- Claim C4 as amended: when every shape is a dimensioned DataShape
and the stripped element shapes are all structurally identical (the
recursion is identical-unification, the default `unite` parameter), the
result is `N * (k * element)` when all leading dimensions agree on k
and `N * (Var * element)` otherwise.  The side condition rules out the
library-impossible bare-DataShape element.  The examples are those of
the claim. -/
theorem claim_C4 :
    (∀ (sh : Mono) (rest : List Mono),
      ((sh :: rest).all isDimensioned) = true →
      ((rest.map stripLeadDim).all (fun x => Mono.beq x (stripLeadDim sh))) = true →
      isBareDataShape (stripLeadDim sh) = false →
      unite_merge_dimensions (sh :: rest) =
        some (mulNat (rest.length + 1)
          (dimMul
            (if (rest.map headDim).all (fun x => x == headDim sh) then headDim sh
             else Dim.var)
            (stripLeadDim sh)))) ∧
    unify [.datashape [.fixed 10] .string_, .datashape [.fixed 20] .string_] =
      .ok (.datashape [.fixed 2, .var] .string_) ∧
    unify [.datashape [.fixed 10] .string_, .datashape [.fixed 10] .string_] =
      .ok (.datashape [.fixed 2, .fixed 10] .string_) := by
  refine ⟨fun sh rest h1 h2 h3 => ?_, rfl, rfl⟩
  rw [unite_merge_dimensions]
  simp only [h1, if_true]
  have hid : unite_identical ((sh :: rest).map stripLeadDim) =
      some (mulNat (rest.length + 1) (stripLeadDim sh)) := by
    rw [List.map_cons, unite_identical]
    simp only [h2, if_true, List.length_map]
  rw [hid, List.map_cons]
  simp [stripLeadDim_mulNat (rest.length + 1) (stripLeadDim sh) h3]

/-- Claim C4, witness: the amended statement at [10 * string,
10 * string]. -/
theorem claim_C4_witness :
    unite_merge_dimensions
      [.datashape [.fixed 10] .string_, .datashape [.fixed 10] .string_] =
      some (.datashape [.fixed 2, .fixed 10] .string_) :=
  claim_C4.1 (.datashape [.fixed 10] .string_) [.datashape [.fixed 10] .string_]
    (by decide) (by decide) (by decide)

/-- Claim C6, counterexample: [(1, 2), (3, 4)] is a sequence of
equal-arity tuples, but its columns both discover as int64, so the
column shapes unify by identical-unification and discover returns
2 * (2 * int64) — not `N * Tuple(perColumnShapes)` as claimed (the
Tuple constructor is only the last resort of the per-row chain). -/
theorem claim_C6_counterexample :
    discover (.seq [.seq [.int 1, .int 2], .seq [.int 3, .int 4]]) =
      .ok (.datashape [.fixed 2, .fixed 2] .int64) ∧
    (Mono.datashape [.fixed 2, .fixed 2] .int64) ≠ mulNat 2 (.tuple [.int64, .int64]) :=
  ⟨rfl, by decide⟩

/-- Claim C6 as amended: the column-of-tuples fast path transposes,
unifies each column, and returns
`N * do_one([unite_identical, unite_merge_dimensions, Tuple])(columnShapes)`
— a Tuple of the per-column shapes only when neither unification
strategy applies to them; the column-of-records fast path returns
`N * Record(sorted keys zipped with column shapes)` as claimed.  The
first conjunct ties the sequence branch to `discover`; the examples are
those of the claim. -/
theorem claim_C6 :
    (∀ xs : List Value, discover (.seq xs) = discoverSeq discover xs) ∧
    (∀ (d : Value → Except PyErr Mono) (xs : List Value) (rows : List (List Value))
      (types : List Mono),
      asSeqElems xs = some rows → lensSetSizeOne rows = true →
      collectCols d (pyZip rows) = .ok (some types) →
      discoverSeq d xs = .ok (mulNat xs.length (unite_with_tuple types))) ∧
    (∀ (d : Value → Except PyErr Mono) (xs : List Value)
      (first : List (String × Value)) (rest : List (List (String × Value)))
      (types : List Mono),
      tuplePath d xs = .ok Option.none →
      asDictElems xs = some (first :: rest) → sameKeySets (first :: rest) = true →
      collectCols d (recordColumns (first :: rest)) = .ok (some types) →
      discoverSeq d xs =
        .ok (mulNat xs.length
          (.record ((sortStrings (first.map Prod.fst)).zip types)))) ∧
    discover (.seq [.seq [.int 1, .str "a"], .seq [.int 2, .str "b"]]) =
      .ok (.datashape [.fixed 2] (.tuple [.int64, .string_])) ∧
    discover (.seq [.dict [("x", .int 1), ("y", .str "a")],
                    .dict [("x", .int 2), ("y", .str "b")]]) =
      .ok (.datashape [.fixed 2] (.record [("x", .int64), ("y", .string_)])) := by
  refine ⟨fun xs => discover_seq_eq xs, fun d xs rows types h1 h2 h3 => ?_,
    fun d xs first rest types h1 h2 h3 h4 => ?_, rfl, rfl⟩
  · have ht : tuplePath d xs = .ok (some (mulNat xs.length (unite_with_tuple types))) := by
      simp only [tuplePath, h1, h2, if_true, h3]
    rw [discoverSeq, ht]
  · have hr : recordPath d xs =
        .ok (some (mulNat xs.length
          (.record ((sortStrings (first.map Prod.fst)).zip types)))) := by
      simp only [recordPath, h2, h3, if_true, h4]
    rw [discoverSeq, h1, hr]

/-- Claim C6, witness: the tuple fast-path statement at the concrete
sequence [(1, "a"), (2, "b")]. -/
theorem claim_C6_witness :
    discoverSeq discover [.seq [.int 1, .str "a"], .seq [.int 2, .str "b"]] =
      .ok (.datashape [.fixed 2] (.tuple [.int64, .string_])) :=
  claim_C6.2.1 discover [.seq [.int 1, .str "a"], .seq [.int 2, .str "b"]]
    [[.int 1, .str "a"], [.int 2, .str "b"]] [.int64, .string_] rfl rfl rfl

/-- Claim C9: whenever discover maps a string-keyed mapping to a
Record, the field names are exactly the sorted keys — ascending in the
lexicographic string order, whatever the input order — and every Record
the column-of-records fast path produces likewise lists its fields
sorted ascending. -/
theorem claim_C9 :
    (∀ (kvs : List (String × Value)) (fs : List (String × Mono)),
      discover (.dict kvs) = .ok (.record fs) →
      fs.map Prod.fst = sortStrings (kvs.map Prod.fst) ∧
      List.Sorted strLe (fs.map Prod.fst)) ∧
    (∀ (d : Value → Except PyErr Mono) (xs : List Value) (m : Mono),
      recordPath d xs = .ok (some m) →
      ∃ fs : List (String × Mono), m = mulNat xs.length (.record fs) ∧
        List.Sorted strLe (fs.map Prod.fst)) := by
  constructor
  · intro kvs fs h
    have h' : discoverDict (discoverFuel (Value.sizeFields kvs)) kvs = .ok (.record fs) := h
    rw [discoverDict] at h'
    cases hd : discoverFields (discoverFuel (Value.sizeFields kvs))
        (sortStrings (kvs.map Prod.fst)) kvs with
    | error e => rw [hd] at h'; exact absurd h' (by simp)
    | ok fs' =>
      rw [hd] at h'
      simp only [Except.ok.injEq, Mono.record.injEq] at h'
      have hk := discoverFields_keys _ _ _ _ hd
      rw [← h']
      exact ⟨hk, hk ▸ sortStrings_sorted _⟩
  · intro d xs m h
    rw [recordPath] at h
    split at h
    · exact absurd h (by simp)
    · split at h
      · split at h
        · exact absurd h (by simp)
        · rename_i first rest heq hsk
          split at h
          · exact absurd h (by simp)
          · exact absurd h (by simp)
          · rename_i types hc
            simp only [Except.ok.injEq, Option.some.injEq] at h
            refine ⟨(sortStrings (first.map Prod.fst)).zip types, h.symm, ?_⟩
            have hlen := collectCols_length d (recordColumns (first :: rest)) types hc
            have hcl : (recordColumns (first :: rest)).length =
                (sortStrings (first.map Prod.fst)).length := by
              rw [recordColumns]
              simp
            have hfst : ((sortStrings (first.map Prod.fst)).zip types).map Prod.fst =
                sortStrings (first.map Prod.fst) :=
              List.map_fst_zip _ _ (by rw [hlen, hcl])
            rw [hfst]
            exact sortStrings_sorted _
      · exact absurd h (by simp)

/-- Claim C9, witness: the mapping statement at the concrete dict
{"y": 1, "x": "a"}, whose fields come back sorted as x then y. -/
theorem claim_C9_witness :
    ([("x", Mono.string_), ("y", Mono.int64)].map Prod.fst =
      sortStrings ([("y", Value.int 1), ("x", Value.str "a")].map Prod.fst)) ∧
    List.Sorted strLe ([("x", Mono.string_), ("y", Mono.int64)].map Prod.fst) :=
  claim_C9.1 [("y", Value.int 1), ("x", Value.str "a")]
    [("x", Mono.string_), ("y", Mono.int64)] rfl

theorem bool_eq_of_iff {a b : Bool} (h : a = true ↔ b = true) : a = b := by
  cases a <;> cases b <;> simp_all

/-- Claim C2: on a nonempty list of scalar-or-null shapes whose
non-null members have a common promotion target, `unite_base` returns
`N * c` with c the most specific common promotion target — the earliest
member of the topological order reachable from every non-null member —
wrapped in Option exactly when null members are present.  The examples
are those of the claim (with `real` = `float64`). -/
theorem claim_C2 :
    (∀ (shapes : List Mono) (c : Mono),
      (∀ m ∈ shapes, isScalarOrNull m = true) →
      shapes.filter (fun x => !isnull x) ≠ [] →
      mostSpecificCommon (shapes.filter (fun x => !isnull x)) = some c →
      unite_base shapes =
        .ok (some (mulNat shapes.length
          (if (shapes.filter (fun x => isnull x)).isEmpty then c else .option c)))) ∧
    unify [.int32, .int64, .float64] = .ok (.datashape [.fixed 3] .float64) ∧
    unify [.int32, .int64] = .ok (.datashape [.fixed 2] .int64) ∧
    unify [.int64, .int64, .null] = .ok (.datashape [.fixed 3] (.option .int64)) := by
  refine ⟨fun shapes c hall hnn hmsc => ?_, rfl, rfl, rfl⟩
  have hmap : shapes.map unpack = shapes := by
    calc shapes.map unpack = shapes.map id :=
          List.map_congr_left (fun a ha => unpack_scalarOrNull a (hall a ha))
      _ = shapes := List.map_id shapes
  cases hnn' : shapes.filter (fun x => !isnull x) with
  | nil => exact absurd hnn' hnn
  | cons d rest =>
    rw [hnn'] at hmsc
    have hdnn : d ∈ shapes.filter (fun x => !isnull x) := by
      rw [hnn']
      exact List.mem_cons_self d rest
    have hdm := List.mem_filter.mp hdnn
    have hdnull : isnull d = false := by simpa using hdm.2
    have hlcd : lowest_common_dshape (d :: rest) = .ok (some c) := by
      simp only [lowest_common_dshape]
      set common :=
        rest.foldl (fun acc x => acc.filter (fun y => (descendents x).contains y))
          (descendents d) with hcdef
      have hcomb : ∀ y : Mono, y ∈ common ↔ ∀ x ∈ d :: rest, y ∈ descendents x := by
        intro y
        rw [hcdef, foldl_inter_mem, List.forall_mem_cons]
      have hpc := List.find?_some hmsc
      have hcin : ∀ x ∈ d :: rest, c ∈ descendents x := fun x hx =>
        (contains_iff_mem _ _).mp (List.all_eq_true.mp hpc x hx)
      have hcc : c ∈ common := (hcomb c).mpr hcin
      have hne2 : common.isEmpty = false := by
        cases hcomm : common.isEmpty with
        | false => rfl
        | true =>
          exfalso
          rw [List.isEmpty_iff.mp hcomm] at hcc
          exact absurd hcc (List.not_mem_nil c)
      have hall2 : common.all (fun y => toposorted.contains y) = true := by
        rw [List.all_eq_true]
        intro y hy
        have hyd : y ∈ descendents d := ((hcomb y).mp hy) d (List.mem_cons_self d rest)
        exact desc_topo d (hall d hdm.1) hdnull y hyd
      have hfind : toposorted.find? (fun y => common.contains y) = some c := by
        have hpq : ∀ y ∈ toposorted,
            (common.contains y) =
              ((d :: rest).all (fun x => (descendents x).contains y)) := by
          intro y _
          apply bool_eq_of_iff
          rw [contains_iff_mem, List.all_eq_true]
          constructor
          · intro h x hx
            exact (contains_iff_mem _ _).mpr (((hcomb y).mp h) x hx)
          · intro h
            exact (hcomb y).mpr (fun x hx => (contains_iff_mem _ _).mp (h x hx))
        rw [find?_congr _ _ toposorted hpq]
        exact hmsc
      simp only [hne2, hall2, Bool.false_eq_true, if_false, if_true]
      rw [hfind]
    simp only [unite_base, hmap, hnn', hlcd]

/-- Claim C2, witness: the general statement at [int64, null] — one
null member, so the common target int64 comes back Option-wrapped. -/
theorem claim_C2_witness :
    unite_base [Mono.int64, Mono.null] =
      .ok (some (.datashape [.fixed 2] (.option .int64))) :=
  claim_C2.1 [Mono.int64, Mono.null] Mono.int64 (by decide) (by decide) (by decide)
